import Mathlib

/-!
Verification development for the national-caseload-data-ingest pipeline
(`import_zip.py`).  Python strings are embedded as `List Char`; the regular
expressions of the source are embedded either as hand-derived parsers (for the
anchored `re.match` in `get_field_type`) or through a small backtracking
matcher that mirrors Python's leftmost-greedy semantics (for the `re.finditer`
and `re.search` calls of the layout parser).  Character classes are modelled
at ASCII scope, which covers every string the claims mention.
-/

set_option maxRecDepth 100000

namespace Caseload

abbrev Str := List Char

/-- Python's `\s` class at ASCII scope: space, tab, newline, carriage return,
vertical tab and form feed. -/
def pyIsSpace (c : Char) : Bool :=
  c == ' ' || c == '\t' || c == '\n' || c == '\r' ||
  c == Char.ofNat 11 || c == Char.ofNat 12

/-- The class `[A-Z]`. -/
def isUpperAZ (c : Char) : Bool := 'A' ≤ c && c ≤ 'Z'

/-- Value of an ASCII digit character. -/
def digitVal (c : Char) : Nat := c.toNat - 48

/-- The decimal digit character for `n < 10` (and `'9'` above). -/
def digitChar (n : Nat) : Char :=
  if n = 0 then '0' else if n = 1 then '1' else if n = 2 then '2'
  else if n = 3 then '3' else if n = 4 then '4' else if n = 5 then '5'
  else if n = 6 then '6' else if n = 7 then '7' else if n = 8 then '8'
  else '9'

/-- Numeric value of a digit string (most significant first). -/
def natOfDigits (s : Str) : Nat :=
  s.foldl (fun a c => a * 10 + digitVal c) 0

/-- Decimal digits of `n`, fuelled so the definition is structural. -/
def natDigitsAux : Nat → Nat → Str
  | 0, _ => []
  | f + 1, n =>
    if n < 10 then [digitChar n]
    else natDigitsAux f (n / 10) ++ [digitChar (n % 10)]

/-- Python `str` of a natural number. -/
def natRepr (n : Nat) : Str := natDigitsAux (n + 1) n

/-- Python `str` of an integer. -/
def intRepr (i : Int) : Str :=
  if i < 0 then '-' :: natRepr i.natAbs else natRepr i.toNat

/-- Python `str.strip()` at ASCII scope. -/
def pyStrip (s : Str) : Str :=
  ((s.dropWhile pyIsSpace).reverse.dropWhile pyIsSpace).reverse

/-- Digit-run parser used by the `int()` model: after a first digit, Python
accepts further digits with single underscores allowed between digits. -/
def pyDigitsCore : Nat → Str → Option Nat
  | acc, [] => some acc
  | acc, c :: cs =>
    if c == '_' then
      match cs with
      | [] => none
      | d :: ds => if d.isDigit then pyDigitsCore (acc * 10 + digitVal d) ds else none
    else if c.isDigit then pyDigitsCore (acc * 10 + digitVal c) cs
    else none

/-- Unsigned body of Python `int()`. -/
def pyIntNN : Str → Option Nat
  | [] => none
  | c :: cs => if c.isDigit then pyDigitsCore (digitVal c) cs else none

/-- Python `int(str)` at ASCII scope: surrounding whitespace is stripped, an
optional sign precedes the digits; `none` models the `ValueError`. -/
def pyInt (s : Str) : Option Int :=
  match pyStrip s with
  | [] => none
  | c :: cs =>
    if c == '+' then (pyIntNN cs).map Int.ofNat
    else if c == '-' then (pyIntNN cs).map (fun n => -(Int.ofNat n))
    else (pyIntNN (c :: cs)).map Int.ofNat

/-- Model of `int()` with a default; used only where the source applies `int` to a
capture of `\d+`, which always parses. -/
def pyIntD (s : Str) : Int := (pyInt s).getD 0

/-- Split at every comma (the comma-only part of `re.split r',\s*'`). -/
def splitOnComma : Str → List Str
  | [] => [[]]
  | c :: cs =>
    if c == ',' then [] :: splitOnComma cs
    else
      match splitOnComma cs with
      | h :: t => (c :: h) :: t
      | [] => [[c]]

/-- Model of `re.split(r',\s*', s)`: splitting on a comma also consumes the whitespace
following it, i.e. the pieces after the first lose their leading whitespace. -/
def splitCommaWs (s : Str) : List Str :=
  match splitOnComma s with
  | [] => []
  | h :: t => h :: t.map (List.dropWhile pyIsSpace)

/-- Python `str.lower()` at ASCII scope. -/
def pyLower (s : Str) : Str := s.map Char.toLower

/-- A digit string: every character is an ASCII digit. -/
abbrev allDigit (s : Str) : Prop := ∀ c ∈ s, c.isDigit = true

/-! ### The type mapper (`get_field_type`) -/

/-- The target column types produced by `get_field_type` (sqlalchemy types:
`String(n)`, `Integer`, `BigInteger`, `Numeric(p, s)`, `Date`). -/
inductive SqlType where
  | string (n : Int)
  | integer
  | bigInteger
  | numeric (p s : Int)
  | date
deriving DecidableEq, Repr

/-- The Python exceptions `get_field_type` can raise.  `notImplementedError`
is the code's realisation of the spec's `UnsupportedTypeError`. -/
inductive PyErr where
  | attributeError
  | typeError
  | valueError
  | notImplementedError
deriving DecidableEq, Repr

instance {ε α : Type} [DecidableEq ε] [DecidableEq α] :
    DecidableEq (Except ε α) := fun a b =>
  match a, b with
  | .ok x, .ok y =>
    if h : x = y then isTrue (by rw [h]) else isFalse (by intro hc; cases hc; exact h rfl)
  | .error x, .error y =>
    if h : x = y then isTrue (by rw [h]) else isFalse (by intro hc; cases hc; exact h rfl)
  | .ok _, .error _ => isFalse (by intro hc; cases hc)
  | .error _, .ok _ => isFalse (by intro hc; cases hc)

/-- Prefix of a list strictly before its last `')'`; `none` when there is no
`')'`.  This realises the greedy `\((?P<args>.+)\)` submatch: the closing
paren the engine settles on is the last one. -/
def lastCloseSplit : Str → Option Str
  | [] => none
  | c :: cs =>
    match lastCloseSplit cs with
    | some m => some (c :: m)
    | none => if c == ')' then some [] else none

/-- Model of `re.match(r'(?P<type>[^(]+)(?:\((?P<args>.+)\))?', s)`: the type component
is the maximal paren-free prefix; the optional argument component, when an
opening paren follows, is the text up to the last `')'` within the
newline-free stretch (`.` does not match `'\n'`), and must be nonempty.
`none` models the failed match (`AttributeError` on `.group`). -/
def reMatchTypeArgs (s : Str) : Option (Str × Option Str) :=
  let ty := s.takeWhile (fun c => !(c == '('))
  if ty.isEmpty then none
  else
    match s.drop ty.length with
    | '(' :: inner =>
      let p := inner.takeWhile (fun c => !(c == '\n'))
      match lastCloseSplit p with
      | some m => if m.isEmpty then some (ty, none) else some (ty, some m)
      | none => some (ty, none)
    | _ => some (ty, none)

/-- Embedding of `get_field_type` (import_zip.py:94-126).  The `NUMBER` branch
catches only `TypeError` (raised by `re.split` on a missing argument group);
`ValueError` from `int` propagates, as does the `TypeError`/`ValueError` of
the `VARCHAR` branch's bare `int(...)`. -/
def get_field_type (s : Str) : Except PyErr SqlType :=
  match reMatchTypeArgs s with
  | none => .error .attributeError
  | some (ty, argsOpt) =>
    if ty == "VARCHAR".data || ty == "VARCHAR2".data then
      match argsOpt with
      | none => .error .typeError
      | some a =>
        match pyInt a with
        | none => .error .valueError
        | some n => .ok (.string n)
    else if ty == "NUMBER".data then
      match argsOpt with
      | none => .ok .bigInteger
      | some a =>
        match (splitCommaWs a).mapM pyInt with
        | none => .error .valueError
        | some ns =>
          match ns with
          | [n] => if n < 10 then .ok .integer else .ok .bigInteger
          | [p, q] => .ok (.numeric p q)
          | _ => .error .notImplementedError
    else if ty == "DATE".data then .ok .date
    else .error .notImplementedError

/-! ### A small backtracking regex engine

The layout parser's patterns use only single-character classes, literals,
greedy `+` over a class, a greedy optional, capture groups and sequencing,
with `^` anchoring handled by the scanning loop.  `reMatch` returns every
way a pattern can match a prefix of the input, in exactly the priority order
of Python's backtracking engine, so the head of the list is the match Python
reports. -/

inductive RE where
  | cls (p : Char → Bool)
  | lit (s : Str)
  | plus (p : Char → Bool)
  | opt (r : RE)
  | grp (g : Nat) (r : RE)
  | seq (a b : RE)

/-- Captured groups of one match, as group-number/substring pairs. -/
abbrev Caps := List (Nat × Str)

/-- Remainders after a greedy `p+`: the maximal run first, down to one
character. -/
def plusSplits (p : Char → Bool) (cs : Str) : List Str :=
  let m := (cs.takeWhile p).length
  (List.range m).map (fun i => cs.drop (m - i))

/-- All prefix matches of `r` against `cs` in backtracking priority order,
each with the remaining input and the captures made. -/
def reMatch : RE → Str → List (Str × Caps)
  | .cls _, [] => []
  | .cls p, c :: cs => if p c then [(cs, [])] else []
  | .lit s, cs => if s.isPrefixOf cs then [(cs.drop s.length, [])] else []
  | .plus p, cs => (plusSplits p cs).map (fun rest => (rest, []))
  | .opt r, cs => reMatch r cs ++ [(cs, [])]
  | .grp g r, cs =>
    (reMatch r cs).map (fun pr => (pr.1, (g, cs.take (cs.length - pr.1.length)) :: pr.2))
  | .seq a b, cs =>
    (reMatch a cs).flatMap (fun pr =>
      (reMatch b pr.1).map (fun qr => (qr.1, pr.2 ++ qr.2)))

/-- Does the matched text end with a newline?  Determines whether the position
right after the match is a line start for the `^` anchor. -/
def endsWithNL (m : Str) : Bool := m.getLast? == some '\n'

/-- Scanning loop of `re.finditer` for a `^`-anchored pattern under
`re.MULTILINE`: at each line-start position try the pattern; on a match,
record its captures and continue after the matched text (non-overlapping);
otherwise advance one character.  Fuel is the remaining input length plus
one, so the recursion is structural. -/
def findIterAux (r : RE) : Nat → Str → Bool → List Caps
  | 0, _, _ => []
  | fuel + 1, cs, atLS =>
    match (if atLS then reMatch r cs else []) with
    | (rest, caps) :: _ =>
      let k := cs.length - rest.length
      if k = 0 then
        match cs with
        | [] => []
        | c :: cs2 => findIterAux r fuel cs2 (c == '\n')
      else caps :: findIterAux r fuel rest (endsWithNL (cs.take k))
    | [] =>
      match cs with
      | [] => []
      | c :: cs2 => findIterAux r fuel cs2 (c == '\n')

/-- Model of `re.finditer` for a `^`-anchored multiline pattern. -/
def findIter (r : RE) (cs : Str) : List Caps :=
  findIterAux r (cs.length + 1) cs true

/-- Model of `re.search(r'^' + pat, s, re.MULTILINE)` for a literal `pat` (the source
interpolates the table name into the pattern; names in the claims contain no
regex metacharacters, where interpolation and literal search agree): offset
of the first line-start occurrence of `pat`. -/
def searchLineLit (pat : Str) : Str → Bool → Nat → Option Nat
  | [], atLS, pos => if atLS && pat.isEmpty then some pos else none
  | c :: cs, atLS, pos =>
    if atLS && pat.isPrefixOf (c :: cs) then some pos
    else searchLineLit pat cs (c == '\n') (pos + 1)

/-- Model of `match.group(g)`: the capture of group `g` (every group of the layout
patterns is present in any successful match, so the default is never hit). -/
def capGet (caps : Caps) (g : Nat) : Str := (caps.lookup g).getD []

/-- Patterns without capture groups. -/
def noGrp : RE → Bool
  | .cls _ => true
  | .lit _ => true
  | .plus _ => true
  | .opt r => noGrp r
  | .grp _ _ => false
  | .seq a b => noGrp a && noGrp b

/-- Token patterns shaped `[A-Z]p+`. -/
def tokRE (p : Char → Bool) : RE := .seq (.cls isUpperAZ) (.plus p)

/-! ### The layout parser -/

/-- The shape `[A-Z][^\s]+` of field-name and field-type tokens. -/
def upperTok : RE := tokRE (fun c => !pyIsSpace c)

/-- The field-declaration pattern of `extract_schema` (import_zip.py:52-57):
`^(?P<field_name>[A-Z][^\s]+)\s+(?:NOT NULL)?\s+(?P<field_type>[A-Z][^\s]+)\s+\((?P<start_column>\d+):(?P<end_column>\d+)\)`
with groups numbered 1-4 in order. -/
def fieldRE : RE :=
  .seq (.grp 1 upperTok)
  (.seq (.plus pyIsSpace)
  (.seq (.opt (.lit "NOT NULL".data))
  (.seq (.plus pyIsSpace)
  (.seq (.grp 2 upperTok)
  (.seq (.plus pyIsSpace)
  (.seq (.lit ['('])
  (.seq (.grp 3 (.plus Char.isDigit))
  (.seq (.lit [':'])
  (.seq (.grp 4 (.plus Char.isDigit))
        (.lit [')']))))))))))

/-- The table-header pattern of `extract_table_schemas` (import_zip.py:68):
`^([A-Z][^ ]+) - ` (the negated class excludes only the space character). -/
def headerRE : RE :=
  .seq (.grp 1 (tokRE (fun c => !(c == ' ')))) (.lit " - ".data)

/-- One row of the schema CSV built by `make_schema_io`: all four values are
strings, `start` and `length` being `str()` of the computed integers. -/
structure SchemaRow where
  column : Str
  start : Str
  length : Str
  field_type : Str
deriving DecidableEq, Repr

/-- Embedding of `make_row` inside `make_schema_io` (import_zip.py:29-37): `int()` the two
offset captures and derive `start` and `length = end - start + 1`. -/
def make_row (caps : Caps) : SchemaRow :=
  let start_column : Int := pyIntD (capGet caps 3)
  let end_column : Int := pyIntD (capGet caps 4)
  { column := capGet caps 1
    start := intRepr start_column
    length := intRepr (end_column - start_column + 1)
    field_type := capGet caps 2 }

/-- Embedding of `make_schema_io` (import_zip.py:28-48) modulo CSV serialisation: the
DictWriter/DictReader round trip is the identity on these rows, so the
`StringIO` is embedded as the row list itself. -/
def make_schema_io (raw_field_specs : List Caps) : List SchemaRow :=
  raw_field_specs.map make_row

/-- Embedding of `extract_schema` (import_zip.py:51-59). -/
def extract_schema (readme_fragment : Str) : List SchemaRow :=
  make_schema_io (findIter fieldRE readme_fragment)

/-- Python dict assignment `d[k] = v`: replace in place when the key exists,
else append. -/
def dictInsert (d : List (Str × List SchemaRow)) (k : Str) (v : List SchemaRow) :
    List (Str × List SchemaRow) :=
  if d.any (fun p => p.1 == k) then
    d.map (fun p => if p.1 == k then (k, v) else p)
  else d ++ [(k, v)]

/-- Python slice `s[a:b]` / `s[a:]`. -/
def pySlice (s : Str) (a : Nat) : Option Nat → Str
  | some b => (s.take b).drop a
  | none => s.drop a

/-- The header scan of `extract_table_schemas` (import_zip.py:68):
`re.findall(r'^([A-Z][^ ]+) - ', readme, re.MULTILINE)`. -/
def header_table_names (readme : Str) : List Str :=
  (findIter headerRE readme).map (fun caps => capGet caps 1)

/-- Embedding of `get_table_start` (import_zip.py:70-73): locate the table's header by
searching for `'^' + table_name + ' - '` — `re.search` finds the FIRST such
line, so a duplicated name always reports the first occurrence's offset.
`none` models `.start()` on a failed search. -/
def get_table_start (readme table_name : Str) : Str × Option Nat :=
  (table_name, searchLineLit (table_name ++ " - ".data) readme true 0)

/-- Embedding of `get_table_end` applied over the enumerated start list
(import_zip.py:77-84): an entry whose NAME equals the last table name gets no
end offset; any other entry `i` ends at entry `i+1`'s start. -/
def table_info_of (table_starts : List (Str × Nat)) (last_table_name : Str) :
    List (Str × Nat × Option Nat) :=
  table_starts.enum.map (fun q =>
    (q.2.1, q.2.2,
      if q.2.1 == last_table_name then none
      else (table_starts.get? (q.1 + 1)).map (fun p => p.2)))

/-- Embedding of `extract_table_schemas` (import_zip.py:62-91) on the decoded README text.
`none` models the failure modes: `table_names[-1]` on an empty header list
(`IndexError`), and a failed header search (`AttributeError` on `.start()`,
impossible in the literal-search model but kept for faithfulness).  The dict
is built by last-wins insertion over the per-table fragments. -/
def extract_table_schemas (readme : Str) : Option (List (Str × List SchemaRow)) :=
  match (header_table_names readme).getLast? with
  | none => none
  | some last_table_name =>
    if ((header_table_names readme).map (get_table_start readme)).all
        (fun p => p.2.isSome) then
      some ((table_info_of
          (((header_table_names readme).map (get_table_start readme)).map
            (fun p => (p.1, p.2.getD 0))) last_table_name).foldl
        (fun d q => dictInsert d q.1 (extract_schema (pySlice readme q.2.1 q.2.2)))
        [])
    else none

/-! ### Load-side operations -/

/-- Embedding of `file_is_for_table` inside `load_table` (import_zip.py:158-161): the
member name is compared as-is against the lowercased table name. -/
def file_is_for_table (name file_name : Str) : Bool :=
  if file_name == pyLower name ++ ".txt".data then true
  else List.isPrefixOf (pyLower name ++ "_".data) file_name

/-- The sentinel normalisation of `load_table` (import_zip.py:185-187): each
cell exactly equal to `"*"` becomes the empty string. -/
def normalize_row (raw_row : List Str) : List Str :=
  raw_row.map (fun item => if item == "*".data then [] else item)

/-- Modelled from the spec: the Fixed-Width Converter (§4.3) is realised by
the external `csvkit` routine `fixed2csv`, whose source is not part of this
repository.  Per the spec, each column's value is the substring of the line
at `[start_offset - 1, start_offset - 1 + length)` (0-based), with no
implicit trimming, and out-of-range positions simply yield what remains.
The `start`/`length` strings of the schema rows are parsed back to integers
as the CSV consumer does. -/
def convert_line (schema : List SchemaRow) (line : Str) : List Str :=
  schema.map (fun col =>
    let s := (pyInt col.start).getD 0
    let l := (pyInt col.length).getD 0
    (line.drop (s - 1).toNat).take l.toNat)

/-- A created table handle: name plus ordered column name/type pairs. -/
structure DbTable where
  name : Str
  columns : List (Str × SqlType)
deriving DecidableEq, Repr

/-- Embedding of `ensure_table_exists` (import_zip.py:129-152).  Each call constructs a
fresh `MetaData`, whose in-memory table map is empty, so the membership test
never fires (the source's FIXME notes exactly this); the columns are rebuilt
from the schema rows, and `metadata.create_all()` — whose default
`checkfirst` consults the database catalog, modelled as the list of existing
tables per the spec's §6 collaborator interface — creates the table only if
it is absent.  Errors are the exceptions `get_field_type` raises. -/
def ensure_table_exists (table_name : Str) (table_schema : List SchemaRow)
    (db : List DbTable) : Except PyErr (DbTable × List DbTable) :=
  let metadata_tables : List DbTable := []
  match metadata_tables.find? (fun t => t.name == table_name) with
  | some t => .ok (t, db)
  | none =>
    match table_schema.mapM
        (fun row => (get_field_type row.field_type).map (fun ty => (row.column, ty))) with
    | .error e => .error e
    | .ok cols =>
      let table : DbTable := ⟨table_name, cols⟩
      let db2 := if db.any (fun t => t.name == table_name) then db
                 else db ++ [table]
      .ok (table, db2)

/-! ### Concrete documents and spec-side comparison definitions -/

/-- The layout fragment of the spec's testable-properties section. -/
def personFragment : Str :=
  ("PERSON - description\n" ++
   "FIRST_NAME          NOT NULL VARCHAR2(20)    (1:20)\n" ++
   "AGE                          NUMBER(3)        (21:23)\n").data

def personRow1 : SchemaRow :=
  ⟨"FIRST_NAME".data, "1".data, "20".data, "VARCHAR2(20)".data⟩

def personRow2 : SchemaRow :=
  ⟨"AGE".data, "21".data, "3".data, "NUMBER(3)".data⟩

/-- A layout document whose table header `AA` occurs twice, each occurrence
followed by its own field declaration. -/
def dupHeaderDoc : Str :=
  "AA - x\nCOLA  TB  (1:2)\nAA - y\nCOLB  TC  (3:4)\n".data

def dupRowA : SchemaRow := ⟨"COLA".data, "1".data, "2".data, "TB".data⟩

def dupRowB : SchemaRow := ⟨"COLB".data, "3".data, "2".data, "TC".data⟩

/-- The member-matching predicate as the claim words it — case-insensitive on
the member name.  This follows the spec's words, for comparison against
`file_is_for_table`, which is translated from the source. -/
def spec_member_matches (name file_name : Str) : Bool :=
  (pyLower file_name == pyLower name ++ ".txt".data) ||
  List.isPrefixOf (pyLower name ++ "_".data) file_name

/-! ### Character and token facts -/

lemma digit_beq_false {c d : Char} (h : c.isDigit = true) (hd : d.isDigit = false) :
    (c == d) = false := by
  rw [beq_eq_false_iff_ne]
  intro he; subst he; rw [h] at hd; cases hd

lemma digit_not_space {c : Char} (h : c.isDigit = true) : pyIsSpace c = false := by
  have k : ∀ d : Char, d.isDigit = false → c ≠ d := by
    intro d hd he; subst he; rw [h] at hd; cases hd
  simp only [pyIsSpace, Bool.or_eq_false_iff, beq_eq_false_iff_ne]
  exact ⟨⟨⟨⟨⟨k ' ' (by decide), k '\t' (by decide)⟩, k '\n' (by decide)⟩,
    k '\r' (by decide)⟩, k (Char.ofNat 11) (by decide)⟩, k (Char.ofNat 12) (by decide)⟩

lemma not_space_beq_false {c d : Char} (h : pyIsSpace c = false)
    (hd : pyIsSpace d = true) : (c == d) = false := by
  rw [beq_eq_false_iff_ne]
  intro he; subst he; rw [h] at hd; cases hd

lemma space_beq_not_space {c d : Char} (hc : pyIsSpace c = true)
    (hd : pyIsSpace d = false) : (c == d) = false := by
  rw [beq_eq_false_iff_ne]
  intro he; subst he; rw [hd] at hc; cases hc

lemma digitChar_isDigit (n : Nat) : (digitChar n).isDigit = true := by
  unfold digitChar
  repeat' split
  all_goals decide

lemma digitVal_digitChar {n : Nat} (h : n < 10) : digitVal (digitChar n) = n := by
  interval_cases n <;> decide

/-! ### `int()` on digit strings -/

lemma pyDigitsCore_digits :
    ∀ (s : Str) (acc : Nat), allDigit s →
      pyDigitsCore acc s = some (s.foldl (fun a c => a * 10 + digitVal c) acc) := by
  intro s
  induction s with
  | nil => intro acc _; rfl
  | cons c cs ih =>
    intro acc h
    have hc : c.isDigit = true := h c (List.mem_cons_self c cs)
    have hcs : allDigit cs := fun d hd => h d (List.mem_cons_of_mem c hd)
    have hu : (c == '_') = false := @digit_beq_false c '_' hc (by decide)
    rw [pyDigitsCore.eq_def]
    simp only [hu, Bool.false_eq_true, if_false, hc, if_true, List.foldl_cons]
    exact ih (acc * 10 + digitVal c) hcs

lemma pyIntNN_digits {s : Str} (h1 : s ≠ []) (h2 : allDigit s) :
    pyIntNN s = some (natOfDigits s) := by
  cases s with
  | nil => cases h1 rfl
  | cons c cs =>
    have hc : c.isDigit = true := h2 c (List.mem_cons_self c cs)
    have hcs : allDigit cs := fun d hd => h2 d (List.mem_cons_of_mem c hd)
    simp only [pyIntNN, hc, if_true]
    rw [pyDigitsCore_digits cs (digitVal c) hcs]
    simp [natOfDigits]

lemma pyStrip_of_no_space {s : Str} (h : ∀ c ∈ s, pyIsSpace c = false) :
    pyStrip s = s := by
  unfold pyStrip
  have h1 : s.dropWhile pyIsSpace = s := by
    cases s with
    | nil => rfl
    | cons c cs =>
      rw [List.dropWhile_cons_of_neg]
      rw [h c (List.mem_cons_self c cs)]
      exact Bool.false_ne_true
  rw [h1]
  rcases hr : s.reverse with _ | ⟨d, ds⟩
  · rw [List.reverse_eq_nil_iff] at hr; rw [hr]; rfl
  · have hd : d ∈ s := by
      rw [← List.mem_reverse, hr]; exact List.mem_cons_self d ds
    rw [List.dropWhile_cons_of_neg]
    · rw [← hr, List.reverse_reverse]
    · rw [h d hd]; exact Bool.false_ne_true

lemma pyInt_digits {s : Str} (h1 : s ≠ []) (h2 : allDigit s) :
    pyInt s = some (Int.ofNat (natOfDigits s)) := by
  unfold pyInt
  rw [pyStrip_of_no_space (fun c hc => digit_not_space (h2 c hc))]
  cases s with
  | nil => cases h1 rfl
  | cons c cs =>
    have hc : c.isDigit = true := h2 c (List.mem_cons_self c cs)
    have hp : (c == '+') = false := @digit_beq_false c '+' hc (by decide)
    have hm : (c == '-') = false := @digit_beq_false c '-' hc (by decide)
    simp only [hp, hm, Bool.false_eq_true, if_false]
    rw [pyIntNN_digits h1 h2]
    rfl

/-! ### Decimal representation round trip -/

lemma natDigitsAux_spec :
    ∀ (f n : Nat), n < f →
      natDigitsAux f n ≠ [] ∧ allDigit (natDigitsAux f n) ∧
        natOfDigits (natDigitsAux f n) = n := by
  intro f
  induction f with
  | zero => intro n h; omega
  | succ f ih =>
    intro n h
    by_cases hn : n < 10
    · simp only [natDigitsAux, hn, if_true]
      refine ⟨by simp, ?_, ?_⟩
      · intro c hc
        rcases List.mem_singleton.mp hc with rfl
        exact digitChar_isDigit n
      · simp [natOfDigits, digitVal_digitChar hn]
    · have hdiv : n / 10 < f := by
        have h1 : n / 10 < n := Nat.div_lt_self (by omega) (by omega)
        omega
      obtain ⟨ihne, ihd, ihv⟩ := ih (n / 10) hdiv
      simp only [natDigitsAux, hn, if_false]
      refine ⟨by simp, ?_, ?_⟩
      · intro c hc
        rcases List.mem_append.mp hc with hc | hc
        · exact ihd c hc
        · rcases List.mem_singleton.mp hc with rfl
          exact digitChar_isDigit (n % 10)
      · unfold natOfDigits at ihv ⊢
        rw [List.foldl_append, ihv]
        simp only [List.foldl_cons, List.foldl_nil]
        rw [digitVal_digitChar (Nat.mod_lt n (by omega))]
        omega

lemma natRepr_ne_nil (n : Nat) : natRepr n ≠ [] :=
  (natDigitsAux_spec (n + 1) n (Nat.lt_succ_self n)).1

lemma natRepr_allDigit (n : Nat) : allDigit (natRepr n) :=
  (natDigitsAux_spec (n + 1) n (Nat.lt_succ_self n)).2.1

lemma natOfDigits_natRepr (n : Nat) : natOfDigits (natRepr n) = n :=
  (natDigitsAux_spec (n + 1) n (Nat.lt_succ_self n)).2.2

lemma pyInt_natRepr (n : Nat) : pyInt (natRepr n) = some (Int.ofNat n) := by
  rw [pyInt_digits (natRepr_ne_nil n) (natRepr_allDigit n), natOfDigits_natRepr]

lemma pyInt_intRepr (i : Int) : pyInt (intRepr i) = some i := by
  unfold intRepr
  by_cases h : i < 0
  · simp only [h, if_true]
    unfold pyInt
    have hall : ∀ c ∈ '-' :: natRepr i.natAbs, pyIsSpace c = false := by
      intro c hc
      rcases List.mem_cons.mp hc with rfl | hc
      · decide
      · exact digit_not_space (natRepr_allDigit _ c hc)
    rw [pyStrip_of_no_space hall]
    simp only [show (('-' : Char) == '+') = false by decide, Bool.false_eq_true, if_false,
      show (('-' : Char) == '-') = true by decide, if_true]
    rw [pyIntNN_digits (natRepr_ne_nil _) (natRepr_allDigit _), natOfDigits_natRepr]
    simp only [Option.map_some']
    congr 1
    simp only [Int.ofNat_eq_coe]
    omega
  · simp only [h, if_false]
    rw [pyInt_natRepr]
    congr 1
    simp only [Int.ofNat_eq_coe]
    omega

/-! ### `re.split(r',\s*')` -/

lemma splitOnComma_no_comma {s : Str} (h : ∀ c ∈ s, (c == ',') = false) :
    splitOnComma s = [s] := by
  induction s with
  | nil => rfl
  | cons c cs ih =>
    have hc := h c (List.mem_cons_self c cs)
    simp only [splitOnComma, hc, Bool.false_eq_true, if_false]
    rw [ih (fun d hd => h d (List.mem_cons_of_mem c hd))]

lemma splitOnComma_append {a r : Str} (h : ∀ c ∈ a, (c == ',') = false) :
    splitOnComma (a ++ ',' :: r) = a :: splitOnComma r := by
  induction a with
  | nil =>
    simp only [List.nil_append, splitOnComma, show ((',' : Char) == ',') = true by decide,
      if_true]
  | cons c a' ih =>
    have hc := h c (List.mem_cons_self c a')
    simp only [List.cons_append, splitOnComma, hc, Bool.false_eq_true, if_false]
    rw [List.append_eq, ih (fun d hd => h d (List.mem_cons_of_mem c hd))]

/-! ### Symbolic evaluation of `get_field_type` -/

lemma takeWhile_all {p : Char → Bool} {l : Str} (h : ∀ x ∈ l, p x = true) :
    List.takeWhile p l = l := by
  induction l with
  | nil => rfl
  | cons c cs ih =>
    rw [List.takeWhile_cons_of_pos (h c (List.mem_cons_self c cs))]
    rw [ih (fun x hx => h x (List.mem_cons_of_mem c hx))]

lemma takeWhile_stop {p : Char → Bool} {l r : Str} {c : Char}
    (hl : ∀ x ∈ l, p x = true) (hc : p c = false) :
    List.takeWhile p (l ++ c :: r) = l := by
  rw [List.takeWhile_append_of_pos hl]
  rw [List.takeWhile_cons_of_neg (by rw [hc]; exact Bool.false_ne_true)]
  exact List.append_nil l

lemma lastCloseSplit_append {a : Str} (h : ∀ c ∈ a, (c == ')') = false) :
    lastCloseSplit (a ++ [')']) = some a := by
  induction a with
  | nil => rfl
  | cons c cs ih =>
    rw [List.cons_append, lastCloseSplit, ih (fun d hd => h d (List.mem_cons_of_mem c hd))]

/-- Evaluation of `reMatchTypeArgs` on `NAME(ARGS)`-shaped input. -/
lemma reMatchTypeArgs_args {t a : Str} (ht : t ≠ [])
    (htp : ∀ c ∈ t, (c == '(') = false)
    (ha : a ≠ []) (hnl : ∀ c ∈ a, (c == '\n') = false)
    (hcp : ∀ c ∈ a, (c == ')') = false) :
    reMatchTypeArgs (t ++ '(' :: (a ++ [')'])) = some (t, some a) := by
  unfold reMatchTypeArgs
  have h1 : List.takeWhile (fun c => !(c == '(')) (t ++ '(' :: (a ++ [')'])) = t :=
    takeWhile_stop (fun x hx => by rw [htp x hx]; rfl) (by decide)
  rw [h1]
  have h2 : t.isEmpty = false := by
    cases t with
    | nil => cases ht rfl
    | cons c cs => rfl
  simp only [h2, Bool.false_eq_true, if_false, List.drop_left]
  have h3 : List.takeWhile (fun c => !(c == '\n')) (a ++ [')']) = a ++ [')'] := by
    apply takeWhile_all
    intro x hx
    rcases List.mem_append.mp hx with hx | hx
    · rw [hnl x hx]; rfl
    · rcases List.mem_singleton.mp hx with rfl; rfl
  rw [h3, lastCloseSplit_append hcp]
  have h4 : a.isEmpty = false := by
    cases a with
    | nil => cases ha rfl
    | cons c cs => rfl
  simp only [h4, Bool.false_eq_true, if_false]

/-- Evaluation of `reMatchTypeArgs` on a paren-free name. -/
lemma reMatchTypeArgs_noargs {t : Str} (ht : t ≠ [])
    (htp : ∀ c ∈ t, (c == '(') = false) :
    reMatchTypeArgs t = some (t, none) := by
  unfold reMatchTypeArgs
  have h1 : List.takeWhile (fun c => !(c == '(')) t = t :=
    takeWhile_all (fun x hx => by rw [htp x hx]; rfl)
  rw [h1]
  have h2 : t.isEmpty = false := by
    cases t with
    | nil => cases ht rfl
    | cons c cs => rfl
  simp only [h2, Bool.false_eq_true, if_false, List.drop_length]

lemma allDigit_facts {a : Str} (h : allDigit a) :
    (∀ c ∈ a, (c == '\n') = false) ∧ (∀ c ∈ a, (c == ')') = false) ∧
      (∀ c ∈ a, (c == ',') = false) := by
  refine ⟨?_, ?_, ?_⟩ <;> intro c hc <;>
    exact @digit_beq_false c _ (h c hc) (by decide)

lemma gft_varchar {t : Str}
    (hv : t = "VARCHAR".data ∨ t = "VARCHAR2".data)
    {ds : Str} (h1 : ds ≠ []) (h2 : allDigit ds) :
    get_field_type (t ++ '(' :: (ds ++ [')'])) =
      .ok (.string (Int.ofNat (natOfDigits ds))) := by
  obtain ⟨hnl, hcp, _⟩ := allDigit_facts h2
  have ht : t ≠ [] := by rcases hv with rfl | rfl <;> decide
  have htp : ∀ c ∈ t, (c == '(') = false := by
    rcases hv with rfl | rfl <;> decide
  unfold get_field_type
  rw [reMatchTypeArgs_args ht htp h1 hnl hcp]
  have hd : (t == "VARCHAR".data || t == "VARCHAR2".data) = true := by
    rcases hv with rfl | rfl <;> decide
  simp only [hd, if_true]
  rw [pyInt_digits h1 h2]

lemma dropWhile_no_space {a : Str} (h : allDigit a) :
    List.dropWhile pyIsSpace a = a := by
  cases a with
  | nil => rfl
  | cons c cs =>
    rw [List.dropWhile_cons_of_neg]
    rw [digit_not_space (h c (List.mem_cons_self c cs))]
    exact Bool.false_ne_true

lemma gft_number_one {ds : Str} (h1 : ds ≠ []) (h2 : allDigit ds) :
    get_field_type ("NUMBER".data ++ '(' :: (ds ++ [')'])) =
      if (Int.ofNat (natOfDigits ds)) < 10 then .ok .integer
      else .ok .bigInteger := by
  obtain ⟨hnl, hcp, hcm⟩ := allDigit_facts h2
  unfold get_field_type
  rw [reMatchTypeArgs_args (by decide) (by decide) h1 hnl hcp]
  simp only [show ("NUMBER".data == "VARCHAR".data || "NUMBER".data == "VARCHAR2".data)
      = false by decide, Bool.false_eq_true, if_false,
    show ("NUMBER".data == "NUMBER".data) = true by decide, if_true]
  unfold splitCommaWs
  rw [splitOnComma_no_comma hcm]
  simp only [List.map_nil, List.mapM_cons, List.mapM_nil]
  rw [pyInt_digits h1 h2]
  rfl

lemma gft_number_two {d1 d2 : Str} (h1 : d1 ≠ []) (h2 : allDigit d1)
    (h3 : d2 ≠ []) (h4 : allDigit d2) :
    get_field_type ("NUMBER".data ++ '(' :: ((d1 ++ ',' :: d2) ++ [')'])) =
      .ok (.numeric (Int.ofNat (natOfDigits d1)) (Int.ofNat (natOfDigits d2))) := by
  obtain ⟨hnl1, hcp1, hcm1⟩ := allDigit_facts h2
  obtain ⟨hnl2, hcp2, hcm2⟩ := allDigit_facts h4
  have ha : d1 ++ ',' :: d2 ≠ [] := by
    cases d1 <;> simp
  have hnl : ∀ c ∈ d1 ++ ',' :: d2, (c == '\n') = false := by
    intro c hc
    rcases List.mem_append.mp hc with hc | hc
    · exact hnl1 c hc
    · rcases List.mem_cons.mp hc with rfl | hc
      · decide
      · exact hnl2 c hc
  have hcp : ∀ c ∈ d1 ++ ',' :: d2, (c == ')') = false := by
    intro c hc
    rcases List.mem_append.mp hc with hc | hc
    · exact hcp1 c hc
    · rcases List.mem_cons.mp hc with rfl | hc
      · decide
      · exact hcp2 c hc
  unfold get_field_type
  rw [reMatchTypeArgs_args (by decide) (by decide) ha hnl hcp]
  simp only [show ("NUMBER".data == "VARCHAR".data || "NUMBER".data == "VARCHAR2".data)
      = false by decide, Bool.false_eq_true, if_false,
    show ("NUMBER".data == "NUMBER".data) = true by decide, if_true]
  unfold splitCommaWs
  rw [splitOnComma_append hcm1, splitOnComma_no_comma hcm2]
  simp only [List.map_cons, List.map_nil, List.mapM_cons, List.mapM_nil]
  rw [dropWhile_no_space h4, pyInt_digits h1 h2, pyInt_digits h3 h4]
  rfl

lemma gft_number_three {d1 d2 d3 : Str}
    (h1 : d1 ≠ []) (h2 : allDigit d1) (h3 : d2 ≠ []) (h4 : allDigit d2)
    (h5 : d3 ≠ []) (h6 : allDigit d3) :
    get_field_type ("NUMBER".data ++ '(' :: ((d1 ++ ',' :: (d2 ++ ',' :: d3)) ++ [')'])) =
      .error .notImplementedError := by
  obtain ⟨hnl1, hcp1, hcm1⟩ := allDigit_facts h2
  obtain ⟨hnl2, hcp2, hcm2⟩ := allDigit_facts h4
  obtain ⟨hnl3, hcp3, hcm3⟩ := allDigit_facts h6
  have ha : d1 ++ ',' :: (d2 ++ ',' :: d3) ≠ [] := by
    cases d1 <;> simp
  have hnl : ∀ c ∈ d1 ++ ',' :: (d2 ++ ',' :: d3), (c == '\n') = false := by
    intro c hc
    rcases List.mem_append.mp hc with hc | hc
    · exact hnl1 c hc
    · rcases List.mem_cons.mp hc with rfl | hc
      · decide
      · rcases List.mem_append.mp hc with hc | hc
        · exact hnl2 c hc
        · rcases List.mem_cons.mp hc with rfl | hc
          · decide
          · exact hnl3 c hc
  have hcp : ∀ c ∈ d1 ++ ',' :: (d2 ++ ',' :: d3), (c == ')') = false := by
    intro c hc
    rcases List.mem_append.mp hc with hc | hc
    · exact hcp1 c hc
    · rcases List.mem_cons.mp hc with rfl | hc
      · decide
      · rcases List.mem_append.mp hc with hc | hc
        · exact hcp2 c hc
        · rcases List.mem_cons.mp hc with rfl | hc
          · decide
          · exact hcp3 c hc
  unfold get_field_type
  rw [reMatchTypeArgs_args (by decide) (by decide) ha hnl hcp]
  simp only [show ("NUMBER".data == "VARCHAR".data || "NUMBER".data == "VARCHAR2".data)
      = false by decide, Bool.false_eq_true, if_false,
    show ("NUMBER".data == "NUMBER".data) = true by decide, if_true]
  unfold splitCommaWs
  rw [splitOnComma_append hcm1, splitOnComma_append hcm2, splitOnComma_no_comma hcm3]
  simp only [List.map_cons, List.map_nil, List.mapM_cons, List.mapM_nil]
  rw [dropWhile_no_space h4, dropWhile_no_space h6,
    pyInt_digits h1 h2, pyInt_digits h3 h4, pyInt_digits h5 h6]
  rfl

lemma gft_unknown_name {t : Str} (ht : t ≠ [])
    (htp : ∀ c ∈ t, (c == '(') = false)
    (n1 : t ≠ "VARCHAR".data) (n2 : t ≠ "VARCHAR2".data)
    (n3 : t ≠ "NUMBER".data) (n4 : t ≠ "DATE".data) :
    get_field_type t = .error .notImplementedError := by
  unfold get_field_type
  rw [reMatchTypeArgs_noargs ht htp]
  simp only [beq_eq_false_iff_ne.mpr n1, beq_eq_false_iff_ne.mpr n2,
    beq_eq_false_iff_ne.mpr n3, beq_eq_false_iff_ne.mpr n4,
    Bool.or_self, Bool.false_eq_true, if_false]

/-! ### Engine facts -/

lemma takeWhile_length_le (p : Char → Bool) (cs : Str) :
    (cs.takeWhile p).length ≤ cs.length :=
  (List.takeWhile_sublist p).length_le

lemma mem_plusSplits {p : Char → Bool} {cs rem : Str}
    (h : rem ∈ plusSplits p cs) :
    ∃ k, 1 ≤ k ∧ k ≤ (cs.takeWhile p).length ∧ rem = cs.drop k := by
  unfold plusSplits at h
  rcases List.mem_map.mp h with ⟨i, hi, rfl⟩
  rw [List.mem_range] at hi
  exact ⟨(cs.takeWhile p).length - i, by omega, by omega, rfl⟩

lemma plusSplits_cons_neg {p : Char → Bool} {c : Char} {cs : Str}
    (h : p c = false) : plusSplits p (c :: cs) = [] := by
  unfold plusSplits
  rw [List.takeWhile_cons_of_neg (by rw [h]; exact Bool.false_ne_true)]
  rfl

lemma plusSplits_one {p : Char → Bool} {c : Char} {cs : Str} (hc : p c = true)
    (h : List.takeWhile p cs = []) : plusSplits p (c :: cs) = [cs] := by
  unfold plusSplits
  rw [List.takeWhile_cons_of_pos hc, h]
  rfl

lemma mem_reMatch_cls {p : Char → Bool} {cs : Str} {pr : Str × Caps}
    (h : pr ∈ reMatch (.cls p) cs) :
    ∃ c cs2, cs = c :: cs2 ∧ p c = true ∧ pr = (cs2, []) := by
  cases cs with
  | nil => cases h
  | cons c cs2 =>
    unfold reMatch at h
    by_cases hc : p c = true
    · rw [hc] at h
      simp only [if_true, List.mem_singleton] at h
      exact ⟨c, cs2, rfl, hc, h⟩
    · rw [Bool.not_eq_true] at hc
      rw [hc] at h
      simp at h

lemma mem_reMatch_plus {p : Char → Bool} {cs : Str} {pr : Str × Caps}
    (h : pr ∈ reMatch (.plus p) cs) :
    ∃ k, 1 ≤ k ∧ k ≤ (cs.takeWhile p).length ∧ pr = (cs.drop k, []) := by
  unfold reMatch at h
  rcases List.mem_map.mp h with ⟨rem, hrem, rfl⟩
  rcases mem_plusSplits hrem with ⟨k, h1, h2, rfl⟩
  exact ⟨k, h1, h2, rfl⟩

lemma mem_reMatch_grp {g : Nat} {r : RE} {cs : Str} {pr : Str × Caps} :
    pr ∈ reMatch (.grp g r) cs ↔
      ∃ q, q ∈ reMatch r cs ∧
        pr = (q.1, (g, cs.take (cs.length - q.1.length)) :: q.2) := by
  constructor
  · intro h
    simp only [reMatch] at h
    rcases List.mem_map.mp h with ⟨q, hq, rfl⟩
    exact ⟨q, hq, rfl⟩
  · rintro ⟨q, hq, rfl⟩
    simp only [reMatch]
    exact List.mem_map.mpr ⟨q, hq, rfl⟩

lemma mem_reMatch_seq {a b : RE} {cs : Str} {pr : Str × Caps} :
    pr ∈ reMatch (.seq a b) cs ↔
      ∃ pa, pa ∈ reMatch a cs ∧
        ∃ pb, pb ∈ reMatch b pa.1 ∧ pr = (pb.1, pa.2 ++ pb.2) := by
  constructor
  · intro h
    simp only [reMatch] at h
    rcases List.mem_flatMap.mp h with ⟨pa, hpa, hm⟩
    rcases List.mem_map.mp hm with ⟨pb, hpb, rfl⟩
    exact ⟨pa, hpa, pb, hpb, rfl⟩
  · rintro ⟨pa, hpa, pb, hpb, rfl⟩
    simp only [reMatch]
    exact List.mem_flatMap.mpr ⟨pa, hpa, List.mem_map.mpr ⟨pb, hpb, rfl⟩⟩

lemma reMatch_noGrp {r : RE} :
    ∀ {cs : Str} {pr : Str × Caps}, pr ∈ reMatch r cs → noGrp r = true →
      pr.2 = [] := by
  induction r with
  | cls p =>
    intro cs pr h _
    rcases mem_reMatch_cls h with ⟨c, cs2, _, _, rfl⟩; rfl
  | lit s =>
    intro cs pr h _
    unfold reMatch at h
    by_cases hp : s.isPrefixOf cs = true
    · rw [hp] at h
      simp only [if_true, List.mem_singleton] at h
      rw [h]
    · rw [Bool.not_eq_true] at hp
      rw [hp] at h
      simp at h
  | plus p =>
    intro cs pr h _
    rcases mem_reMatch_plus h with ⟨k, _, _, rfl⟩; rfl
  | opt r ih =>
    intro cs pr h hg
    unfold reMatch at h
    rcases List.mem_append.mp h with h | h
    · exact ih h hg
    · rcases List.mem_singleton.mp h with rfl; rfl
  | grp g r ih => intro cs pr h hg; cases hg
  | seq a b iha ihb =>
    intro cs pr h hg
    simp only [noGrp, Bool.and_eq_true] at hg
    rcases mem_reMatch_seq.mp h with ⟨pa, hpa, pb, hpb, rfl⟩
    simp only
    rw [iha hpa hg.1, ihb hpb hg.2]
    rfl

lemma tokRE_consumes {p : Char → Bool} {cs : Str} {pr : Str × Caps}
    (h : pr ∈ reMatch (tokRE p) cs) :
    pr.1.length + 2 ≤ cs.length ∧ pr.2 = [] := by
  rcases mem_reMatch_seq.mp h with ⟨pa, hpa, pb, hpb, rfl⟩
  rcases mem_reMatch_cls hpa with ⟨c, cs2, rfl, _, rfl⟩
  change pb ∈ reMatch (.plus p) cs2 at hpb
  rcases mem_reMatch_plus hpb with ⟨k, hk1, hk2, rfl⟩
  have hw := takeWhile_length_le p cs2
  constructor
  · simp only [List.length_drop, List.length_cons]
    omega
  · rfl

lemma findIterAux_succ_false (r : RE) (f : Nat) (cs : Str) :
    findIterAux r (f + 1) cs false =
      match cs with
      | [] => []
      | c :: cs2 => findIterAux r f cs2 (c == '\n') := rfl

lemma findIterAux_succ_true (r : RE) (f : Nat) (cs : Str) :
    findIterAux r (f + 1) cs true =
      match reMatch r cs with
      | (rest, caps) :: _ =>
        if cs.length - rest.length = 0 then
          match cs with
          | [] => []
          | c :: cs2 => findIterAux r f cs2 (c == '\n')
        else caps :: findIterAux r f rest (endsWithNL (cs.take (cs.length - rest.length)))
      | [] =>
        match cs with
        | [] => []
        | c :: cs2 => findIterAux r f cs2 (c == '\n') := rfl

lemma findIterAux_false_nil {r : RE} :
    ∀ (fuel : Nat) (cs : Str), (∀ c ∈ cs, (c == '\n') = false) →
      findIterAux r fuel cs false = [] := by
  intro fuel
  induction fuel with
  | zero => intro cs h; rfl
  | succ f ih =>
    intro cs h
    rw [findIterAux_succ_false]
    cases cs with
    | nil => rfl
    | cons c cs2 =>
      show findIterAux r f cs2 (c == '\n') = []
      rw [h c (List.mem_cons_self c cs2)]
      exact ih cs2 (fun d hd => h d (List.mem_cons_of_mem c hd))

lemma findIter_nil {r : RE} {cs : Str}
    (hnl : ∀ c ∈ cs, (c == '\n') = false) (h0 : reMatch r cs = []) :
    findIter r cs = [] := by
  unfold findIter
  rw [findIterAux_succ_true, h0]
  cases cs with
  | nil => rfl
  | cons c cs2 =>
    show findIterAux r (cs2.length + 1) cs2 (c == '\n') = []
    rw [hnl c (List.mem_cons_self c cs2)]
    exact findIterAux_false_nil _ cs2 (fun d hd => hnl d (List.mem_cons_of_mem c hd))

/-! ### Capture shapes of the layout patterns -/

lemma headerRE_caps {cs : Str} {pr : Str × Caps} (h : pr ∈ reMatch headerRE cs) :
    ∃ nm, pr.2 = [(1, nm)] ∧ 2 ≤ nm.length := by
  rcases mem_reMatch_seq.mp h with ⟨pa, hpa, pb, hpb, rfl⟩
  rcases mem_reMatch_grp.mp hpa with ⟨q, hq, rfl⟩
  obtain ⟨hlen, hcaps⟩ := tokRE_consumes hq
  have hpb2 : pb.2 = [] := reMatch_noGrp hpb rfl
  refine ⟨cs.take (cs.length - q.1.length), ?_, ?_⟩
  · simp [hcaps, hpb2]
  · rw [List.length_take]
    omega

lemma fieldRE_caps {cs : Str} {pr : Str × Caps} (h : pr ∈ reMatch fieldRE cs) :
    ∃ nm tp d1 d2, pr.2 = [(1, nm), (2, tp), (3, d1), (4, d2)] ∧
      2 ≤ nm.length ∧ 2 ≤ tp.length := by
  rcases mem_reMatch_seq.mp h with ⟨p1, hp1, q1, hq1, rfl⟩
  rcases mem_reMatch_grp.mp hp1 with ⟨t1, ht1, rfl⟩
  obtain ⟨hl1, hc1⟩ := tokRE_consumes ht1
  rcases mem_reMatch_seq.mp hq1 with ⟨p2, hp2, q2, hq2, rfl⟩
  have hp2c : p2.2 = [] := reMatch_noGrp hp2 rfl
  rcases mem_reMatch_seq.mp hq2 with ⟨p3, hp3, q3, hq3, rfl⟩
  have hp3c : p3.2 = [] := reMatch_noGrp hp3 rfl
  rcases mem_reMatch_seq.mp hq3 with ⟨p4, hp4, q4, hq4, rfl⟩
  have hp4c : p4.2 = [] := reMatch_noGrp hp4 rfl
  rcases mem_reMatch_seq.mp hq4 with ⟨p5, hp5, q5, hq5, rfl⟩
  rcases mem_reMatch_grp.mp hp5 with ⟨t5, ht5, rfl⟩
  obtain ⟨hl5, hc5⟩ := tokRE_consumes ht5
  rcases mem_reMatch_seq.mp hq5 with ⟨p6, hp6, q6, hq6, rfl⟩
  have hp6c : p6.2 = [] := reMatch_noGrp hp6 rfl
  rcases mem_reMatch_seq.mp hq6 with ⟨p7, hp7, q7, hq7, rfl⟩
  have hp7c : p7.2 = [] := reMatch_noGrp hp7 rfl
  rcases mem_reMatch_seq.mp hq7 with ⟨p8, hp8, q8, hq8, rfl⟩
  rcases mem_reMatch_grp.mp hp8 with ⟨t8, ht8, rfl⟩
  have ht8c : t8.2 = [] := reMatch_noGrp ht8 rfl
  rcases mem_reMatch_seq.mp hq8 with ⟨p9, hp9, q9, hq9, rfl⟩
  have hp9c : p9.2 = [] := reMatch_noGrp hp9 rfl
  rcases mem_reMatch_seq.mp hq9 with ⟨p10, hp10, q10, hq10, rfl⟩
  rcases mem_reMatch_grp.mp hp10 with ⟨t10, ht10, rfl⟩
  have ht10c : t10.2 = [] := reMatch_noGrp ht10 rfl
  have hq10c : q10.2 = [] := reMatch_noGrp hq10 rfl
  refine ⟨cs.take (cs.length - t1.1.length), p4.1.take (p4.1.length - t5.1.length),
    p7.1.take (p7.1.length - t8.1.length), p9.1.take (p9.1.length - t10.1.length),
    ?_, ?_, ?_⟩
  · simp [hc1, hp2c, hp3c, hp4c, hc5, hp6c, hp7c, ht8c, hp9c, ht10c, hq10c]
  · rw [List.length_take]
    omega
  · rw [List.length_take]
    omega

lemma mem_findIterAux {r : RE} :
    ∀ (fuel : Nat) (cs : Str) (b : Bool) {caps : Caps},
      caps ∈ findIterAux r fuel cs b →
      ∃ cs2 pr, pr ∈ reMatch r cs2 ∧ caps = pr.2 := by
  intro fuel
  induction fuel with
  | zero => intro cs b caps h; cases h
  | succ f ih =>
    intro cs b caps h
    cases b with
    | false =>
      rw [findIterAux_succ_false] at h
      cases cs with
      | nil => cases h
      | cons c cs2 => exact ih cs2 (c == '\n') h
    | true =>
      cases hm : reMatch r cs with
      | nil =>
        rw [findIterAux_succ_true, hm] at h
        have h2 : caps ∈ findIterAux r (f + 1) cs false := h
        rw [findIterAux_succ_false] at h2
        cases cs with
        | nil =>
          have h3 : caps ∈ ([] : List Caps) := h2
          cases h3
        | cons c cs2 =>
          have h3 : caps ∈ findIterAux r f cs2 (c == '\n') := h2
          exact ih cs2 (c == '\n') h3
      | cons pr0 tl =>
        obtain ⟨rest, caps0⟩ := pr0
        rw [findIterAux_succ_true, hm] at h
        have h2 : caps ∈ (if cs.length - rest.length = 0 then
            findIterAux r (f + 1) cs false
          else caps0 :: findIterAux r f rest
            (endsWithNL (cs.take (cs.length - rest.length)))) := h
        by_cases hk : cs.length - rest.length = 0
        · rw [if_pos hk, findIterAux_succ_false] at h2
          cases cs with
          | nil =>
            have h3 : caps ∈ ([] : List Caps) := h2
            cases h3
          | cons c cs2 =>
            have h3 : caps ∈ findIterAux r f cs2 (c == '\n') := h2
            exact ih cs2 (c == '\n') h3
        · rw [if_neg hk] at h2
          rcases List.mem_cons.mp h2 with rfl | h3
          · exact ⟨cs, (rest, caps), by rw [hm]; exact List.mem_cons_self _ _, rfl⟩
          · exact ih rest _ h3

lemma mem_findIter {r : RE} {cs : Str} {caps : Caps}
    (h : caps ∈ findIter r cs) :
    ∃ cs2 pr, pr ∈ reMatch r cs2 ∧ caps = pr.2 :=
  mem_findIterAux (cs.length + 1) cs true h

/-- Every column row the layout parser produces has field-name and field-type
tokens of at least two characters. -/
lemma extract_schema_row_len {frag : Str} {row : SchemaRow}
    (h : row ∈ extract_schema frag) :
    2 ≤ row.column.length ∧ 2 ≤ row.field_type.length := by
  unfold extract_schema make_schema_io at h
  rcases List.mem_map.mp h with ⟨caps, hcaps, rfl⟩
  rcases mem_findIter hcaps with ⟨cs2, pr, hpr, rfl⟩
  rcases fieldRE_caps hpr with ⟨nm, tp, d1, d2, hshape, hnm, htp⟩
  constructor
  · show 2 ≤ (capGet pr.2 1).length
    rw [hshape]
    simpa [capGet, List.lookup] using hnm
  · show 2 ≤ (capGet pr.2 2).length
    rw [hshape]
    simpa [capGet, List.lookup] using htp

/-! ### Dict facts -/

lemma mem_dictInsert {d : List (Str × List SchemaRow)} {k : Str}
    {v : List SchemaRow} {p : Str × List SchemaRow}
    (h : p ∈ dictInsert d k v) : p ∈ d ∨ p = (k, v) := by
  unfold dictInsert at h
  by_cases ha : d.any (fun q => q.1 == k) = true
  · rw [if_pos ha] at h
    rcases List.mem_map.mp h with ⟨q, hq, rfl⟩
    by_cases he : (q.1 == k) = true
    · rw [if_pos he]
      exact Or.inr rfl
    · rw [Bool.not_eq_true] at he
      rw [he]
      simp only [Bool.false_eq_true, if_false]
      exact Or.inl hq
  · rw [if_neg ha] at h
    rcases List.mem_append.mp h with h | h
    · exact Or.inl h
    · exact Or.inr (List.mem_singleton.mp h)

lemma mem_foldl_dictInsert {α : Type} (f : α → Str) (g : α → List SchemaRow) :
    ∀ (l : List α) (d0 : List (Str × List SchemaRow)) (p : Str × List SchemaRow),
      p ∈ l.foldl (fun d q => dictInsert d (f q) (g q)) d0 →
      p ∈ d0 ∨ ∃ q ∈ l, p = (f q, g q) := by
  intro l
  induction l with
  | nil => intro d0 p h; exact Or.inl h
  | cons x xs ih =>
    intro d0 p h
    rw [List.foldl_cons] at h
    rcases ih _ p h with h2 | ⟨q, hq, rfl⟩
    · rcases mem_dictInsert h2 with h3 | rfl
      · exact Or.inl h3
      · exact Or.inr ⟨x, List.mem_cons_self x xs, rfl⟩
    · exact Or.inr ⟨q, List.mem_cons_of_mem x hq, rfl⟩

/-! ### No match on a single-space field line -/

lemma reMatch_seq_eq (a b : RE) (cs : Str) :
    reMatch (.seq a b) cs =
      (reMatch a cs).flatMap (fun pr =>
        (reMatch b pr.1).map (fun qr => (qr.1, pr.2 ++ qr.2))) := rfl

lemma reMatch_plus_eq (p : Char → Bool) (cs : Str) :
    reMatch (.plus p) cs = (plusSplits p cs).map (fun rest => (rest, [])) := rfl

lemma reMatch_opt_eq (r : RE) (cs : Str) :
    reMatch (.opt r) cs = reMatch r cs ++ [(cs, [])] := rfl

lemma reMatch_lit_eq (l cs : Str) :
    reMatch (.lit l) cs =
      if l.isPrefixOf cs then [(cs.drop l.length, [])] else [] := rfl

lemma notNull_not_pref {t0 : Char} {tr r : Str}
    (h : ∀ c ∈ t0 :: tr, pyIsSpace c = false) :
    List.isPrefixOf ("NOT NULL".data) ((t0 :: tr) ++ ' ' :: '(' :: r) = false := by
  cases tr with
  | nil =>
    simp only [List.cons_append, List.nil_append, List.isPrefixOf,
      show (('O' : Char) == ' ') = false by decide, Bool.false_and, Bool.and_false]
  | cons t1 tr1 =>
    cases tr1 with
    | nil =>
      simp only [List.cons_append, List.nil_append, List.isPrefixOf,
        show (('T' : Char) == ' ') = false by decide, Bool.false_and, Bool.and_false]
    | cons t2 tr2 =>
      cases tr2 with
      | nil =>
        simp only [List.cons_append, List.nil_append, List.isPrefixOf,
          show (('N' : Char) == '(') = false by decide, Bool.false_and, Bool.and_false]
      | cons t3 tr3 =>
        have h3 : pyIsSpace t3 = false := by
          apply h
          simp
        have hsp : ((' ' : Char) == t3) = false := space_beq_not_space (by decide) h3
        simp only [List.cons_append, List.isPrefixOf, hsp, Bool.false_and, Bool.and_false]

lemma fieldRE_tail_space_nomatch {t0 : Char} {tr R : Str}
    (hts : ∀ c ∈ t0 :: tr, pyIsSpace c = false) :
    reMatch
      (.seq (.plus pyIsSpace)
       (.seq (.opt (.lit "NOT NULL".data))
        (.seq (.plus pyIsSpace)
         (.seq (.grp 2 upperTok)
          (.seq (.plus pyIsSpace)
           (.seq (.lit ['('])
            (.seq (.grp 3 (.plus Char.isDigit))
             (.seq (.lit [':'])
              (.seq (.grp 4 (.plus Char.isDigit))
                    (.lit [')']))))))))))
      (' ' :: ((t0 :: tr) ++ ' ' :: '(' :: R)) = [] := by
  have ht0 : pyIsSpace t0 = false := hts t0 (List.mem_cons_self t0 tr)
  have htw : List.takeWhile pyIsSpace ((t0 :: tr) ++ ' ' :: '(' :: R) = [] := by
    rw [List.cons_append]
    rw [List.takeWhile_cons_of_neg (by rw [ht0]; exact Bool.false_ne_true)]
  rw [reMatch_seq_eq, reMatch_plus_eq, plusSplits_one (by decide) htw]
  simp only [List.map_cons, List.map_nil, List.flatMap_cons, List.flatMap_nil,
    List.append_nil]
  rw [List.map_eq_nil_iff]
  rw [reMatch_seq_eq, List.flatMap_eq_nil_iff]
  intro pr hpr
  rw [List.map_eq_nil_iff]
  have hlit : List.isPrefixOf ("NOT NULL".data) ((t0 :: tr) ++ ' ' :: '(' :: R) = false :=
    notNull_not_pref hts
  rw [reMatch_opt_eq, reMatch_lit_eq, hlit] at hpr
  simp only [Bool.false_eq_true, if_false, List.nil_append, List.mem_singleton] at hpr
  subst hpr
  rw [reMatch_seq_eq, reMatch_plus_eq]
  show ((plusSplits pyIsSpace ((t0 :: tr) ++ ' ' :: '(' :: R)).map _).flatMap _ = []
  rw [List.cons_append, plusSplits_cons_neg ht0]
  rfl

lemma fieldRE_one_space_nomatch {n0 t0 : Char} {nr tr d1 d2 : Str}
    (hns : ∀ c ∈ n0 :: nr, pyIsSpace c = false)
    (hts : ∀ c ∈ t0 :: tr, pyIsSpace c = false) :
    reMatch fieldRE
      ((n0 :: nr) ++ ' ' ::
        ((t0 :: tr) ++ ' ' :: '(' :: (d1 ++ ':' :: (d2 ++ [')'])))) = [] := by
  unfold fieldRE
  rw [reMatch_seq_eq, List.flatMap_eq_nil_iff]
  intro pr hpr
  rw [List.map_eq_nil_iff]
  rcases mem_reMatch_grp.mp hpr with ⟨q, hq, rfl⟩
  unfold upperTok tokRE at hq
  rcases mem_reMatch_seq.mp hq with ⟨pa, hpa, pb, hpb, rfl⟩
  rcases mem_reMatch_cls hpa with ⟨c, cs2, hEq, hcUp, hpa2⟩
  rw [List.cons_append] at hEq
  injection hEq with hc hcs
  subst hc
  subst hcs
  rw [hpa2] at hpb
  change pb ∈ reMatch (.plus (fun c => !pyIsSpace c))
    (nr ++ ' ' :: ((t0 :: tr) ++ ' ' :: '(' :: (d1 ++ ':' :: (d2 ++ [')'])))) at hpb
  rcases mem_reMatch_plus hpb with ⟨k, hk1, hk2, rfl⟩
  have htw : List.takeWhile (fun c => !pyIsSpace c)
      (nr ++ ' ' :: ((t0 :: tr) ++ ' ' :: '(' :: (d1 ++ ':' :: (d2 ++ [')'])))) = nr := by
    apply takeWhile_stop
    · intro x hx
      rw [hns x (List.mem_cons_of_mem n0 hx)]
      rfl
    · decide
  rw [htw] at hk2
  simp only
  rw [List.drop_append_of_le_length hk2]
  by_cases hke : k = nr.length
  · subst hke
    rw [List.drop_length, List.nil_append]
    exact fieldRE_tail_space_nomatch hts
  · have hlt : k < nr.length := by omega
    cases hd : nr.drop k with
    | nil =>
      have hz : nr.length - k = 0 := by
        rw [← List.length_drop, hd]
        rfl
      omega
    | cons d rest =>
      have hdm : d ∈ nr := List.mem_of_mem_drop (hd ▸ List.mem_cons_self d rest)
      have hds : pyIsSpace d = false := hns d (List.mem_cons_of_mem n0 hdm)
      rw [List.cons_append, reMatch_seq_eq, reMatch_plus_eq, plusSplits_cons_neg hds]
      rfl

/-! ### Claim theorems -/

/-- C1: `map_type` realises the spec's rules — `VARCHAR`/`VARCHAR2` with one
integer argument `n` yields `STRING(n)`; bare `NUMBER` yields `BIGINT`;
`NUMBER(n)` yields `INTEGER` exactly when `n < 10` and `BIGINT` otherwise;
`NUMBER(p,s)` yields `NUMERIC(p,s)`; `DATE` yields `DATE` — stated over
arbitrary decimal arguments together with the claim's concrete examples. -/
theorem C1_map_type_rules (ds d1 d2 : Str)
    (h1 : ds ≠ []) (h2 : allDigit ds) (h3 : d1 ≠ []) (h4 : allDigit d1)
    (h5 : d2 ≠ []) (h6 : allDigit d2) :
    (get_field_type ("VARCHAR(".data ++ ds ++ ")".data) =
        .ok (.string (Int.ofNat (natOfDigits ds)))) ∧
    (get_field_type ("VARCHAR2(".data ++ ds ++ ")".data) =
        .ok (.string (Int.ofNat (natOfDigits ds)))) ∧
    (get_field_type "NUMBER".data = .ok .bigInteger) ∧
    (get_field_type ("NUMBER(".data ++ ds ++ ")".data) =
        if (Int.ofNat (natOfDigits ds)) < 10 then .ok .integer
        else .ok .bigInteger) ∧
    (get_field_type ("NUMBER(".data ++ d1 ++ ",".data ++ d2 ++ ")".data) =
        .ok (.numeric (Int.ofNat (natOfDigits d1)) (Int.ofNat (natOfDigits d2)))) ∧
    (get_field_type "DATE".data = .ok .date) ∧
    (get_field_type "VARCHAR(12)".data = .ok (.string 12)) ∧
    (get_field_type "VARCHAR2(4000)".data = .ok (.string 4000)) ∧
    (get_field_type "NUMBER(9)".data = .ok .integer) ∧
    (get_field_type "NUMBER(10)".data = .ok .bigInteger) ∧
    (get_field_type "NUMBER(10,2)".data = .ok (.numeric 10 2)) := by
  have e1 : "VARCHAR(".data ++ ds ++ ")".data =
      "VARCHAR".data ++ '(' :: (ds ++ [')']) := by
    simp [List.append_assoc]
  have e2 : "VARCHAR2(".data ++ ds ++ ")".data =
      "VARCHAR2".data ++ '(' :: (ds ++ [')']) := by
    simp [List.append_assoc]
  have e3 : "NUMBER(".data ++ ds ++ ")".data =
      "NUMBER".data ++ '(' :: (ds ++ [')']) := by
    simp [List.append_assoc]
  have e4 : "NUMBER(".data ++ d1 ++ ",".data ++ d2 ++ ")".data =
      "NUMBER".data ++ '(' :: ((d1 ++ ',' :: d2) ++ [')']) := by
    simp [List.append_assoc]
  refine ⟨?_, ?_, by decide, ?_, ?_, by decide, by decide, by decide,
    by decide, by decide, by decide⟩
  · rw [e1, gft_varchar (Or.inl rfl) h1 h2]
  · rw [e2, gft_varchar (Or.inr rfl) h1 h2]
  · rw [e3, gft_number_one h1 h2]
  · rw [e4, gft_number_two h3 h4 h5 h6]

theorem C1_map_type_rules_witness :
    (("12" : String).data ≠ [] ∧ allDigit ("12" : String).data) ∧
    get_field_type "VARCHAR(12)".data = .ok (.string 12) ∧
    get_field_type "NUMBER(10,2)".data = .ok (.numeric 10 2) := by
  have h := C1_map_type_rules ("12" : String).data ("10" : String).data
    ("2" : String).data (by decide) (by decide) (by decide) (by decide)
    (by decide) (by decide)
  exact ⟨⟨by decide, by decide⟩, h.2.2.2.2.2.2.1, h.2.2.2.2.2.2.2.2.2.2⟩

/-- C5 counterexample: `map_type("VARCHAR")` — a missing argument, one of the
uncovered combinations — fails with `TypeError`, not with the
`UnsupportedTypeError` (`NotImplementedError`) the claim asserts. -/
theorem C5_counterexample :
    get_field_type "VARCHAR".data = .error .typeError ∧
    get_field_type "VARCHAR".data ≠ .error .notImplementedError ∧
    PyErr.typeError ≠ PyErr.notImplementedError := by
  refine ⟨by decide, ?_, by decide⟩
  intro h
  have h2 : Except.error (ε := PyErr) (α := SqlType) .typeError =
      .error .notImplementedError := by
    rw [← h]
    decide
  cases h2

/-- C5 (amended): `map_type` fails on every uncovered type/argument
combination, but with differing exception kinds: an unrecognised type name
and `NUMBER` with three integer arguments raise `NotImplementedError` (the
spec's `UnsupportedTypeError`); `VARCHAR`/`VARCHAR2` with a missing argument
raise `TypeError`; `VARCHAR` with a non-numeric argument and `NUMBER` with
non-integer arguments raise `ValueError`.  The covered combinations succeed. -/
theorem C5_amended_error_kinds (t ds1 ds2 ds3 : Str)
    (ht1 : t ≠ []) (ht2 : ∀ c ∈ t, (c == '(') = false)
    (ht3 : t ≠ "VARCHAR".data) (ht4 : t ≠ "VARCHAR2".data)
    (ht5 : t ≠ "NUMBER".data) (ht6 : t ≠ "DATE".data)
    (h1 : ds1 ≠ []) (h2 : allDigit ds1) (h3 : ds2 ≠ []) (h4 : allDigit ds2)
    (h5 : ds3 ≠ []) (h6 : allDigit ds3) :
    (get_field_type t = .error .notImplementedError) ∧
    (get_field_type ("NUMBER(".data ++ ds1 ++ ",".data ++ ds2 ++ ",".data ++
        ds3 ++ ")".data) = .error .notImplementedError) ∧
    (get_field_type "VARCHAR".data = .error .typeError) ∧
    (get_field_type "VARCHAR2".data = .error .typeError) ∧
    (get_field_type "VARCHAR(ABC)".data = .error .valueError) ∧
    (get_field_type "NUMBER(A,B)".data = .error .valueError) ∧
    (get_field_type "CLOB".data = .error .notImplementedError) ∧
    (get_field_type ("VARCHAR(".data ++ ds1 ++ ")".data) =
        .ok (.string (Int.ofNat (natOfDigits ds1)))) ∧
    (get_field_type ("NUMBER(".data ++ ds1 ++ ",".data ++ ds2 ++ ")".data) =
        .ok (.numeric (Int.ofNat (natOfDigits ds1))
          (Int.ofNat (natOfDigits ds2)))) ∧
    (get_field_type "DATE".data = .ok .date) := by
  have e1 : "NUMBER(".data ++ ds1 ++ ",".data ++ ds2 ++ ",".data ++ ds3 ++ ")".data =
      "NUMBER".data ++ '(' :: ((ds1 ++ ',' :: (ds2 ++ ',' :: ds3)) ++ [')']) := by
    simp [List.append_assoc]
  have e2 : "VARCHAR(".data ++ ds1 ++ ")".data =
      "VARCHAR".data ++ '(' :: (ds1 ++ [')']) := by
    simp [List.append_assoc]
  have e3 : "NUMBER(".data ++ ds1 ++ ",".data ++ ds2 ++ ")".data =
      "NUMBER".data ++ '(' :: ((ds1 ++ ',' :: ds2) ++ [')']) := by
    simp [List.append_assoc]
  refine ⟨gft_unknown_name ht1 ht2 ht3 ht4 ht5 ht6, ?_, by decide, by decide,
    by decide, by decide, by decide, ?_, ?_, by decide⟩
  · rw [e1, gft_number_three h1 h2 h3 h4 h5 h6]
  · rw [e2, gft_varchar (Or.inl rfl) h1 h2]
  · rw [e3, gft_number_two h1 h2 h3 h4]

theorem C5_amended_error_kinds_witness :
    get_field_type "CLOB".data = .error .notImplementedError ∧
    get_field_type "NUMBER(1,2,3)".data = .error .notImplementedError := by
  have h := C5_amended_error_kinds ("CLOB" : String).data ("1" : String).data
    ("2" : String).data ("3" : String).data (by decide) (by decide) (by decide)
    (by decide) (by decide) (by decide) (by decide) (by decide) (by decide)
    (by decide) (by decide) (by decide)
  exact ⟨h.1, h.2.1⟩

/-- C2: for a table absent from the database, `ensure_table_exists` creates
it on the first call (the new table is appended to the catalog), and a
second call with the same arguments returns an equal handle and leaves the
catalog unchanged — `create_all`'s existence check skips re-creation. -/
theorem C2_ensure_table_idempotent (name : Str) (schema : List SchemaRow)
    (db : List DbTable) (t1 : DbTable) (db1 : List DbTable)
    (habs : ∀ t ∈ db, t.name ≠ name)
    (h1 : ensure_table_exists name schema db = .ok (t1, db1)) :
    db1 = db ++ [t1] ∧ t1.name = name ∧
      ensure_table_exists name schema db1 = .ok (t1, db1) := by
  unfold ensure_table_exists at h1 ⊢
  simp only [List.find?_nil] at h1 ⊢
  cases hm : schema.mapM
      (fun row => (get_field_type row.field_type).map
        (fun ty => (row.column, ty))) with
  | error e =>
    rw [hm] at h1
    cases h1
  | ok cols =>
    rw [hm] at h1
    have hany : db.any (fun t => t.name == name) = false := by
      rw [List.any_eq_false]
      intro t ht hbeq
      exact habs t ht (by rwa [beq_iff_eq] at hbeq)
    simp only [hany, Bool.false_eq_true, if_false] at h1
    injection h1 with h1
    injection h1 with hta htb
    subst hta
    subst htb
    refine ⟨rfl, rfl, ?_⟩
    have hany2 : (db ++ [(⟨name, cols⟩ : DbTable)]).any
        (fun t => t.name == name) = true := by
      rw [List.any_eq_true]
      exact ⟨⟨name, cols⟩, List.mem_append_right db (List.mem_singleton.mpr rfl),
        by rw [beq_iff_eq]⟩
    simp only [hany2, if_true]

theorem C2_ensure_table_idempotent_witness :
    ensure_table_exists "T1".data [⟨"A".data, "1".data, "2".data, "DATE".data⟩]
        [⟨"T1".data, [("A".data, .date)]⟩] =
      .ok (⟨"T1".data, [("A".data, .date)]⟩, [⟨"T1".data, [("A".data, .date)]⟩]) := by
  have h := C2_ensure_table_idempotent "T1".data
    [⟨"A".data, "1".data, "2".data, "DATE".data⟩] [] ⟨"T1".data, [("A".data, .date)]⟩
    [⟨"T1".data, [("A".data, .date)]⟩] (by intro t ht; cases ht) (by decide)
  exact h.2.2

/-- C3 counterexample: the claim's case-insensitive matching predicate
accepts the member `PERSON.TXT` for table `PERSON`, but the code's
`file_is_for_table` rejects it — member names are compared as-is. -/
theorem C3_counterexample :
    spec_member_matches "PERSON".data "PERSON.TXT".data = true ∧
    file_is_for_table "PERSON".data "PERSON.TXT".data = false := by decide

/-- C3 (amended): a member is selected iff its name, compared case-sensitively
as-is, equals `lowercase(T) + ".txt"` or starts with `lowercase(T) + "_"`;
the claim's `person.txt` / `person_2023.txt` / `personnel.txt` examples
behave as stated. -/
theorem C3_amended_member_matching (name file_name : Str) :
    (file_is_for_table name file_name =
      ((file_name == pyLower name ++ ".txt".data) ||
        List.isPrefixOf (pyLower name ++ "_".data) file_name)) ∧
    (file_is_for_table "PERSON".data "person.txt".data = true) ∧
    (file_is_for_table "PERSON".data "person_2023.txt".data = true) ∧
    (file_is_for_table "PERSON".data "personnel.txt".data = false) := by
  refine ⟨?_, by decide, by decide, by decide⟩
  unfold file_is_for_table
  by_cases h : (file_name == pyLower name ++ ".txt".data) = true
  · rw [if_pos h, h, Bool.true_or]
  · rw [Bool.not_eq_true] at h
    rw [if_neg (by rw [h]; exact Bool.false_ne_true), h, Bool.false_or]

/-- C6: `normalize` maps each field pointwise — a field exactly equal to the
one-character sentinel `*` becomes empty, every other field (including fields
merely containing an asterisk) passes through unchanged, and the row length
is preserved. -/
theorem C6_normalize_pointwise (row : List Str) :
    ((normalize_row row).length = row.length) ∧
    (∀ (i : Nat) (v : Str), row.get? i = some v →
      (normalize_row row).get? i = some (if v = "*".data then [] else v)) ∧
    (∀ (i : Nat) (v : Str), row.get? i = some v → v ≠ "*".data →
      (normalize_row row).get? i = some v) := by
  have key : ∀ (i : Nat) (v : Str), row.get? i = some v →
      (normalize_row row).get? i = some (if v = "*".data then [] else v) := by
    intro i v hv
    unfold normalize_row
    rw [List.get?_map, hv]
    simp only [Option.map_some']
    congr 1
    by_cases h : v = "*".data
    · rw [if_pos h, if_pos (by rw [h]; rfl)]
    · rw [if_neg h, if_neg (by rw [beq_eq_false_iff_ne.mpr h]; exact Bool.false_ne_true)]
  refine ⟨by simp [normalize_row], key, ?_⟩
  intro i v hv hne
  rw [key i v hv, if_neg hne]

theorem C6_normalize_pointwise_witness :
    (normalize_row ["ab".data, "*".data, "a*b".data]).get? 1 = some [] ∧
    (normalize_row ["ab".data, "*".data, "a*b".data]).get? 2 = some "a*b".data := by
  have h := C6_normalize_pointwise ["ab".data, "*".data, "a*b".data]
  constructor
  · have h2 := h.2.1 1 "*".data rfl
    rw [h2]
    rfl
  · exact h.2.2 2 "a*b".data rfl (by decide)

/-- C7: each field-declaration match with 1-based inclusive `(start, end)`
yields a row with `start_offset = start` and `length = end - start + 1`, in
match order (index-wise correspondence, with the stored decimal strings
parsing back to exactly those integers); on the spec's PERSON fragment the
parser yields the two columns of the claim in order. -/
theorem C7_offset_length_derivation :
    (extract_table_schemas personFragment =
      some [("PERSON".data, [personRow1, personRow2])]) ∧
    (extract_schema personFragment = [personRow1, personRow2]) ∧
    (∀ (ms : List Caps) (i : Nat),
      ((make_schema_io ms).get? i).map
          (fun r => (r.column, pyInt r.start, pyInt r.length, r.field_type)) =
        (ms.get? i).map (fun caps =>
          (capGet caps 1, some (pyIntD (capGet caps 3)),
           some (pyIntD (capGet caps 4) - pyIntD (capGet caps 3) + 1),
           capGet caps 2))) := by
  refine ⟨by decide, by decide, ?_⟩
  intro ms i
  unfold make_schema_io
  rw [List.get?_map]
  cases ms.get? i with
  | none => rfl
  | some caps =>
    simp only [Option.map_some']
    unfold make_row
    simp only
    rw [pyInt_intRepr, pyInt_intRepr]

/-- C8 (converter modelled from the spec, its implementation `fixed2csv`
being external): `convert` extracts each field exactly at its declared
offset range with no trimming — an in-range field keeps its full declared
width, whitespace included — and on the PERSON schema extracted by the
repository's own parser, the line `"JOHN                123"` converts to
`["JOHN                ", "123"]`, unchanged by `normalize`. -/
theorem C8_convert_preserves_whitespace :
    (convert_line (extract_schema personFragment)
        "JOHN                123".data =
      ["JOHN                ".data, "123".data]) ∧
    (normalize_row (convert_line (extract_schema personFragment)
        "JOHN                123".data) =
      ["JOHN                ".data, "123".data]) ∧
    (∀ (schema : List SchemaRow) (line : Str) (i : Nat) (col : SchemaRow)
        (s l : Int),
      schema.get? i = some col → pyInt col.start = some s →
      pyInt col.length = some l →
      ((convert_line schema line).get? i =
        some ((line.drop (s - 1).toNat).take l.toNat)) ∧
      ((s - 1).toNat + l.toNat ≤ line.length →
        ((line.drop (s - 1).toNat).take l.toNat).length = l.toNat)) := by
  refine ⟨by decide, by decide, ?_⟩
  intro schema line i col s l hcol hs hl
  constructor
  · unfold convert_line
    rw [List.get?_map, hcol]
    simp only [Option.map_some', hs, hl, Option.getD_some]
  · intro hle
    rw [List.length_take, List.length_drop]
    omega

theorem C8_convert_preserves_whitespace_witness :
    (convert_line (extract_schema personFragment)
        "JOHN                123".data).get? 0 =
      some "JOHN                ".data ∧
    ("JOHN                ".data : Str).length = 20 := by
  have h := (C8_convert_preserves_whitespace.2.2
    (extract_schema personFragment) "JOHN                123".data 0
    personRow1 1 20 (by decide) (by decide) (by decide)).1
  constructor
  · rw [h]
    decide
  · decide

/-- C9: a field-declaration line whose name and type are separated by exactly
one whitespace character (with no `NOT NULL` marker) produces no column —
the pattern requires at least two whitespace characters there. -/
theorem C9_single_space_no_column (n0 t0 : Char) (nr tr d1 d2 : Str)
    (hns : ∀ c ∈ n0 :: nr, pyIsSpace c = false)
    (hts : ∀ c ∈ t0 :: tr, pyIsSpace c = false)
    (hd1 : allDigit d1) (hd2 : allDigit d2) :
    extract_schema ((n0 :: nr) ++ ' ' ::
      ((t0 :: tr) ++ ' ' :: '(' :: (d1 ++ ':' :: (d2 ++ [')'])))) = [] := by
  have hnl : ∀ c ∈ (n0 :: nr) ++ ' ' ::
      ((t0 :: tr) ++ ' ' :: '(' :: (d1 ++ ':' :: (d2 ++ [')']))),
      (c == '\n') = false := by
    intro c hc
    rcases List.mem_append.mp hc with hc | hc
    · exact @not_space_beq_false c '\n' (hns c hc) (by decide)
    · rcases List.mem_cons.mp hc with rfl | hc
      · decide
      · rcases List.mem_append.mp hc with hc | hc
        · exact @not_space_beq_false c '\n' (hts c hc) (by decide)
        · rcases List.mem_cons.mp hc with rfl | hc
          · decide
          · rcases List.mem_cons.mp hc with rfl | hc
            · decide
            · rcases List.mem_append.mp hc with hc | hc
              · exact @digit_beq_false c '\n' (hd1 c hc) (by decide)
              · rcases List.mem_cons.mp hc with rfl | hc
                · decide
                · rcases List.mem_append.mp hc with hc | hc
                  · exact @digit_beq_false c '\n' (hd2 c hc) (by decide)
                  · rcases List.mem_singleton.mp hc with rfl
                    decide
  unfold extract_schema make_schema_io
  rw [findIter_nil hnl (fieldRE_one_space_nomatch hns hts)]
  rfl

theorem C9_single_space_no_column_witness :
    extract_schema "AB CD (1:2)".data = [] := by
  have h := C9_single_space_no_column 'A' 'C' ['B'] ['D'] ['1'] ['2']
    (by decide) (by decide) (by decide) (by decide)
  exact h

/-- C10: the layout parser never records a single-character table name, and
never records a column whose field-name or field-type token is a single
character — both scanners demand an uppercase letter followed by at least
one more character. -/
theorem C10_no_single_char_tokens (readme : Str)
    (res : List (Str × List SchemaRow))
    (h : extract_table_schemas readme = some res) :
    ∀ p ∈ res, 2 ≤ p.1.length ∧
      ∀ row ∈ p.2, 2 ≤ row.column.length ∧ 2 ≤ row.field_type.length := by
  intro p hp
  unfold extract_table_schemas at h
  split at h
  · cases h
  · split at h
    · injection h with h
      subst h
      rcases mem_foldl_dictInsert
          (fun (q : Str × Nat × Option Nat) => q.1)
          (fun (q : Str × Nat × Option Nat) =>
            extract_schema (pySlice readme q.2.1 q.2.2)) _ _ _ hp with
        hp2 | ⟨q, hq, rfl⟩
      · cases hp2
      · constructor
        · unfold table_info_of at hq
          rcases List.mem_map.mp hq with ⟨e, he, rfl⟩
          obtain ⟨i, ename, est⟩ := e
          have he2 := List.mem_enum_iff_get?.mp he
          have he3 : ((ename, est) : Str × Nat) ∈ ((header_table_names readme).map
              (get_table_start readme)).map (fun p => (p.1, p.2.getD 0)) :=
            List.get?_mem he2
          rcases List.mem_map.mp he3 with ⟨w, hw, heqw⟩
          rcases List.mem_map.mp hw with ⟨n, hn, rfl⟩
          have hname : n = ename := congrArg Prod.fst heqw
          subst hname
          unfold header_table_names at hn
          rcases List.mem_map.mp hn with ⟨caps, hcaps, rfl⟩
          rcases mem_findIter hcaps with ⟨cs2, pr, hpr, rfl⟩
          rcases headerRE_caps hpr with ⟨nm, hshape, hnm⟩
          show 2 ≤ (capGet pr.2 1).length
          rw [hshape]
          simpa [capGet, List.lookup] using hnm
        · intro row hrow
          exact extract_schema_row_len hrow
    · cases h
theorem C10_no_single_char_tokens_witness :
    2 ≤ ("PERSON".data : Str).length ∧ 2 ≤ personRow1.column.length := by
  have h := C10_no_single_char_tokens personFragment
    [("PERSON".data, [personRow1, personRow2])] (by decide)
    ("PERSON".data, [personRow1, personRow2]) (List.mem_singleton.mpr rfl)
  exact ⟨h.1, (h.2 personRow1 (List.mem_cons_self _ _)).1⟩

/-- C4 counterexample: on a document whose header `AA` occurs at offsets 0
and 23, the last duplicate's own fragment (offset 23 to end) contains only
the column `COLB`, but the parser's output associates `AA` with BOTH columns
— so the recorded schema is not the last duplicate's fragment's schema. -/
theorem C4_counterexample :
    (extract_table_schemas dupHeaderDoc =
      some [("AA".data, [dupRowA, dupRowB])]) ∧
    (extract_schema (dupHeaderDoc.drop 23) = [dupRowB]) ∧
    ([dupRowA, dupRowB] ≠ [dupRowB]) := by
  refine ⟨by decide, by decide, by decide⟩

/-- C4 (amended): the header-offset search finds the FIRST occurrence of a
duplicated name, so every duplicate records the first occurrence's offset;
the last-wins association therefore maps the name to the schema of the
fragment starting at the FIRST duplicate's header — and when the duplicated
name is the document's last header name, that fragment extends to the end of
the document, merging the field declarations of all the duplicates'
fragments. -/
theorem C4_amended_first_offset_fragment :
    (header_table_names dupHeaderDoc = ["AA".data, "AA".data]) ∧
    (get_table_start dupHeaderDoc "AA".data = ("AA".data, some 0)) ∧
    (extract_table_schemas dupHeaderDoc =
      some [("AA".data, extract_schema (dupHeaderDoc.drop 0))]) ∧
    (extract_schema (dupHeaderDoc.drop 0) = [dupRowA, dupRowB]) := by
  refine ⟨by decide, by decide, by decide, by decide⟩

end Caseload


